import Mathlib

/-!
Shallow embedding of the two migration scripts of the `medicate` repository:

* `scripts/convert-metadata-to-json.py` — the Normalizer: reads a
  pipe-delimited table, lowercases field names, strips values, and writes the
  records as a JSON array (`json.dump(records, f, indent=2, ensure_ascii=False)`).
* `scripts/migrate-medicines-to-sqlite.py` — the Loader: reads the JSON
  array, creates the `medicines` SQLite schema with three indexes, and inserts
  the records in batches of 1000 with one commit per batch.

Pure functions of the scripts are translated to Lean functions; the SQLite
connection is modelled as an explicit store state plus an operation trace.
-/

namespace Medicate

/-! ### Python string primitives -/

/-- Whitespace characters removed by Python `str.strip()` (the ASCII ones;
field values in this pipeline are ASCII-spaced text). -/
def isPySpace (c : Char) : Bool :=
  c = ' ' || c = '\t' || c = '\n' || c = '\r' || c = '\x0b' || c = '\x0c'

/-- Python `str.strip()`: remove leading and trailing whitespace. -/
def pyStrip (s : String) : String :=
  String.mk (((s.data.dropWhile isPySpace).reverse.dropWhile isPySpace).reverse)

/-- Python `str.lower()` restricted to the ASCII case mapping
(`Char.toLower` lowers exactly the basic latin letters). -/
def pyLower (s : String) : String :=
  String.mk (s.data.map Char.toLower)

/-! ### Python dict model

Values appearing in the pipeline's JSON documents are strings or `null`;
`none` models Python `None` / JSON `null`. A dict is an insertion-ordered
key-value list: assigning an existing key overwrites it in place, assigning a
fresh key appends it, exactly as Python dicts behave. -/

/-- One JSON scalar of the intermediate document: a string or `null`. -/
abbrev PyVal := Option String

/-- An insertion-ordered Python dict with string keys. -/
abbrev PyDict := List (String × PyVal)

/-- Python `d[k] = v` on an insertion-ordered dict. -/
def dictSet (d : PyDict) (k : String) (v : PyVal) : PyDict :=
  if (d.map Prod.fst).contains k then
    d.map (fun p => if p.1 = k then (k, v) else p)
  else d ++ [(k, v)]

/-- Build a dict from a pair list in iteration order: Python `dict(pairs)` or
a dict comprehension over `pairs`. -/
def dictOfPairs (ps : List (String × PyVal)) : PyDict :=
  ps.foldl (fun d p => dictSet d p.1 p.2) []

/-- Python `d.get(k, default)`. -/
def dictGetD (d : PyDict) (k : String) (dflt : PyVal) : PyVal :=
  match List.lookup k d with
  | some v => v
  | none => dflt

/-! ### Normalizer: `convert_csv_to_json` -/

/-- A parsed delimited input table: the header row (the first line, consumed
by `csv.DictReader` as field names) and the data rows that follow, each row
the list of its pipe-separated cells. A blank input line parses to `[]`. -/
structure CsvInput where
  header : List String
  rows : List (List String)

/-- One data row as `csv.DictReader` yields it: `dict(zip(fieldnames, row))`,
and when the row is shorter than the header the remaining field names are
assigned the `restval` default `None`. -/
def dictReaderRecord (fieldnames : List String) (row : List String) : PyDict :=
  let d := dictOfPairs (fieldnames.zip (row.map some))
  (fieldnames.drop row.length).foldl (fun d k => dictSet d k none) d

/-- The value cleanup `v.strip() if v else v`: `None` and the empty string
are falsy and pass through unchanged; any other string is stripped. -/
def cleanValue : PyVal → PyVal
  | none => none
  | some s => if s = "" then some s else some (pyStrip s)

/-- The dict comprehension
`cleaned_row = {k.lower(): v.strip() if v else v for k, v in row.items()}`. -/
def cleanRow (row : PyDict) : PyDict :=
  dictOfPairs (row.map (fun kv => (pyLower kv.1, cleanValue kv.2)))

/-- The record loop of `convert_csv_to_json`: `csv.DictReader` skips blank
rows, every remaining row is cleaned and appended in order. Returns `none`
when the Python code would raise: a row longer than the header puts the extra
cells under the non-string `restkey` `None`, and `k.lower()` then raises. -/
def convert_csv_to_json (input : CsvInput) : Option (List PyDict) :=
  let dataRows := input.rows.filter (fun r => !r.isEmpty)
  if dataRows.all (fun r => r.length ≤ input.header.length) then
    some (dataRows.map (fun r => cleanRow (dictReaderRecord input.header r)))
  else none

/-! ### JSON serialization: `json.dump(records, f, indent=2, ensure_ascii=False)`

The document written by the Normalizer is a JSON array of flat objects whose
values are strings or `null`. The serializer below reproduces the exact bytes
`json.dump` emits for that shape: 2-space indentation, `", "` after keys,
non-ASCII characters literal, and only backslash, double quote and control
characters escaped. -/

/-- Lowercase hex digit for `n < 16`, as in Python's `'\\u%04x'` format. -/
def hexDigit (n : Nat) : Char :=
  if n < 10 then Char.ofNat (48 + n) else Char.ofNat (87 + n)

/-- JSON escaping of one character under `ensure_ascii=False`: backslash,
double quote and the named control escapes, `\\u00..` for the remaining
control characters, everything else literal. -/
def escChar (c : Char) : List Char :=
  if c = '\\' then ['\\', '\\']
  else if c = '"' then ['\\', '"']
  else if c = '\x08' then ['\\', 'b']
  else if c = '\t' then ['\\', 't']
  else if c = '\n' then ['\\', 'n']
  else if c = '\x0c' then ['\\', 'f']
  else if c = '\r' then ['\\', 'r']
  else if c.toNat < 32 then
    ['\\', 'u', '0', '0', hexDigit (c.toNat / 16), hexDigit (c.toNat % 16)]
  else [c]

/-- Join pieces with a separator, as `json.dump` joins members and items
with `",\n"`. -/
def joinSep (sep : List Char) : List (List Char) → List Char
  | [] => []
  | [x] => x
  | x :: xs => x ++ sep ++ joinSep sep xs

/-- A JSON string literal: quote, escaped characters, quote. -/
def serString (s : String) : List Char :=
  '"' :: s.data.flatMap escChar ++ ['"']

/-- A JSON scalar of the document: a string literal or `null`. -/
def serVal : PyVal → List Char
  | none => ['n', 'u', 'l', 'l']
  | some s => serString s

/-- One object member `"key": value`. -/
def serMember (kv : String × PyVal) : List Char :=
  serString kv.1 ++ [':', ' '] ++ serVal kv.2

/-- One record object as `json.dump` prints it at depth 1 with `indent=2`:
members on their own lines at 4-space indentation, closing brace at 2. -/
def serObject (d : PyDict) : List Char :=
  match d with
  | [] => ['{', '}']
  | _ =>
    ['{', '\n'] ++
      joinSep [',', '\n'] (d.map (fun kv => [' ', ' ', ' ', ' '] ++ serMember kv)) ++
      ['\n', ' ', ' ', '}']

/-- The whole document: the array of record objects, items on their own lines
at 2-space indentation. -/
def serDoc (doc : List PyDict) : List Char :=
  match doc with
  | [] => ['[', ']']
  | _ =>
    ['[', '\n'] ++
      joinSep [',', '\n'] (doc.map (fun d => [' ', ' '] ++ serObject d)) ++
      ['\n', ']']

/-- The bytes `json.dump(records, f, indent=2, ensure_ascii=False)` writes. -/
def jsonDump (doc : List PyDict) : String :=
  String.mk (serDoc doc)

/-! ### JSON parsing model: `json.load`

Model of `json.load` restricted to the grammar of the documents above — an
array of flat objects with string or `null` values, which is all the pipeline
ever stores in `medicines.json`. Recursions that walk the input carry a fuel
bound (the caller passes the remaining input length, which always suffices
because every step consumes at least one character). A `\\uXXXX` escape is
decoded for BMP scalar values; the surrogate-pair recombination of the real
parser is not modelled because such escapes never occur in this pipeline. -/

/-- The whitespace characters `json` skips between tokens. -/
def jsonWs (c : Char) : Bool :=
  c = ' ' || c = '\t' || c = '\n' || c = '\r'

/-- Skip inter-token whitespace. -/
def skipWs (input : List Char) : List Char :=
  input.dropWhile jsonWs

/-- Value of one hex digit. -/
def hexVal (c : Char) : Option Nat :=
  if 48 ≤ c.toNat ∧ c.toNat ≤ 57 then some (c.toNat - 48)
  else if 97 ≤ c.toNat ∧ c.toNat ≤ 102 then some (c.toNat - 87)
  else if 65 ≤ c.toNat ∧ c.toNat ≤ 70 then some (c.toNat - 55)
  else none

/-- Decode one escape sequence, starting after the backslash. -/
def parseEscape : List Char → Option (Char × List Char)
  | [] => none
  | e :: rest =>
    if e = '"' then some ('"', rest)
    else if e = '\\' then some ('\\', rest)
    else if e = '/' then some ('/', rest)
    else if e = 'b' then some ('\x08', rest)
    else if e = 'f' then some ('\x0c', rest)
    else if e = 'n' then some ('\n', rest)
    else if e = 'r' then some ('\r', rest)
    else if e = 't' then some ('\t', rest)
    else if e = 'u' then
      match rest with
      | h1 :: h2 :: h3 :: h4 :: rest1 =>
        match hexVal h1, hexVal h2, hexVal h3, hexVal h4 with
        | some a, some b, some c, some d =>
          let n := ((a * 16 + b) * 16 + c) * 16 + d
          if n < 0xd800 then some (Char.ofNat n, rest1) else none
        | _, _, _, _ => none
      | _ => none
    else none

/-- Decode a string body up to its closing quote, starting after the opening
quote; strict mode rejects raw control characters. `fuel` bounds the number
of decoded characters. -/
def parseStringBody (fuel : Nat) (input : List Char) :
    Option (List Char × List Char) :=
  match fuel, input with
  | 0, _ => none
  | _, [] => none
  | fuel + 1, c :: rest =>
    if c = '"' then some ([], rest)
    else if c = '\\' then
      match parseEscape rest with
      | none => none
      | some (ch, rest1) =>
        match parseStringBody fuel rest1 with
        | none => none
        | some (s, r) => some (ch :: s, r)
    else if c.toNat < 32 then none
    else
      match parseStringBody fuel rest with
      | none => none
      | some (s, r) => some (c :: s, r)

/-- Decode one scalar value: a string literal or `null`. -/
def parseValue : List Char → Option (PyVal × List Char)
  | [] => none
  | c :: rest =>
    if c = '"' then
      (parseStringBody rest.length rest).map fun p => (some (String.mk p.1), p.2)
    else if c = 'n' then
      match rest with
      | u :: l1 :: l2 :: rest1 =>
        if u = 'u' ∧ l1 = 'l' ∧ l2 = 'l' then some (none, rest1) else none
      | _ => none
    else none

/-- Decode the members of a non-empty object, accumulating them into a dict
exactly as Python does (a repeated key overwrites the earlier entry). -/
def parseMembers (fuel : Nat) (acc : PyDict) (input : List Char) :
    Option (PyDict × List Char) :=
  match fuel with
  | 0 => none
  | fuel + 1 =>
    match skipWs input with
    | [] => none
    | c :: rest =>
      if c = '"' then
        match parseStringBody rest.length rest with
        | none => none
        | some (k, rest1) =>
          match skipWs rest1 with
          | [] => none
          | c2 :: rest2 =>
            if c2 = ':' then
              match parseValue (skipWs rest2) with
              | none => none
              | some (v, rest3) =>
                match skipWs rest3 with
                | [] => none
                | c3 :: rest4 =>
                  if c3 = ',' then
                    parseMembers fuel (dictSet acc (String.mk k) v) rest4
                  else if c3 = '}' then
                    some (dictSet acc (String.mk k) v, rest4)
                  else none
            else none
      else none

/-- Decode one record object. -/
def parseObject (input : List Char) : Option (PyDict × List Char) :=
  match input with
  | [] => none
  | c :: rest =>
    if c = '{' then
      match skipWs rest with
      | c2 :: rest1 =>
        if c2 = '}' then some ([], rest1) else parseMembers rest.length [] rest
      | [] => parseMembers rest.length [] rest
    else none

/-- Decode the items of a non-empty array. -/
def parseItems (fuel : Nat) (acc : List PyDict) (input : List Char) :
    Option (List PyDict × List Char) :=
  match fuel with
  | 0 => none
  | fuel + 1 =>
    match parseObject (skipWs input) with
    | none => none
    | some (d, rest) =>
      match skipWs rest with
      | [] => none
      | c :: rest1 =>
        if c = ',' then parseItems fuel (acc ++ [d]) rest1
        else if c = ']' then some (acc ++ [d], rest1)
        else none

/-- Decode the top-level array. -/
def parseArray (input : List Char) : Option (List PyDict × List Char) :=
  match input with
  | [] => none
  | c :: rest =>
    if c = '[' then
      match skipWs rest with
      | c2 :: rest1 =>
        if c2 = ']' then some ([], rest1) else parseItems rest.length [] rest
      | [] => parseItems rest.length [] rest
    else none

/-- Model of `json.load` on the pipeline's documents: skip whitespace, decode
the array, require nothing but whitespace to follow. -/
def jsonLoad (doc : String) : Option (List PyDict) :=
  match parseArray (skipWs doc.data) with
  | some (v, rest) => if skipWs rest = [] then some v else none
  | none => none

/-! ### Loader: `migrate-medicines-to-sqlite.py`

The SQLite connection is modelled two ways, both read off the same source:
as a store state (`DbState`) transformed by each executed statement, for the
schema-idempotence and constraint claims, and as a trace of operations
(`DbOp`), for the commit-counting and fail-fast claims. -/

/-- The 27 non-key columns of the `medicines` table in the order declared by
the `CREATE TABLE` statement (after the `id` surrogate primary key). -/
def createTableColumns : List String :=
  ["registratienummer", "soort", "productnaam", "inschrijvingsdatum",
   "handelsvergunninghouder", "afleverstatus", "farmaceutischevorm",
   "potentie", "procedurenummer", "toedieningsweg", "aanvullendemonitoring",
   "smpc_filenaam", "bijsluiter_filenaam", "par_filenaam", "spar_filenaam",
   "armm_filenaam", "smpc_wijzig_datum", "bijsluiter_wijzig_datum",
   "atc", "werkzamestoffen", "hulpstoffen", "productdetail_link",
   "nieuws_links", "nieuws_link_datums", "referentie",
   "smpc_vorige_versie", "smpc_vorige_vorige_versie"]

/-- The column-name list of the `INSERT INTO medicines (...)` statement, in
the order written in the source. -/
def insertColumnNames : List String :=
  ["registratienummer", "soort", "productnaam", "inschrijvingsdatum",
   "handelsvergunninghouder", "afleverstatus", "farmaceutischevorm",
   "potentie", "procedurenummer", "toedieningsweg", "aanvullendemonitoring",
   "smpc_filenaam", "bijsluiter_filenaam", "par_filenaam", "spar_filenaam",
   "armm_filenaam", "smpc_wijzig_datum", "bijsluiter_wijzig_datum",
   "atc", "werkzamestoffen", "hulpstoffen", "productdetail_link",
   "nieuws_links", "nieuws_link_datums", "referentie",
   "smpc_vorige_versie", "smpc_vorige_vorige_versie"]

/-- The `VALUES` tuple bound to the insert statement: one
`medicine.get(name, '')` per parameter, transcribed in source order. -/
def insertValues (medicine : PyDict) : List PyVal :=
  [dictGetD medicine "registratienummer" (some ""),
   dictGetD medicine "soort" (some ""),
   dictGetD medicine "productnaam" (some ""),
   dictGetD medicine "inschrijvingsdatum" (some ""),
   dictGetD medicine "handelsvergunninghouder" (some ""),
   dictGetD medicine "afleverstatus" (some ""),
   dictGetD medicine "farmaceutischevorm" (some ""),
   dictGetD medicine "potentie" (some ""),
   dictGetD medicine "procedurenummer" (some ""),
   dictGetD medicine "toedieningsweg" (some ""),
   dictGetD medicine "aanvullendemonitoring" (some ""),
   dictGetD medicine "smpc_filenaam" (some ""),
   dictGetD medicine "bijsluiter_filenaam" (some ""),
   dictGetD medicine "par_filenaam" (some ""),
   dictGetD medicine "spar_filenaam" (some ""),
   dictGetD medicine "armm_filenaam" (some ""),
   dictGetD medicine "smpc_wijzig_datum" (some ""),
   dictGetD medicine "bijsluiter_wijzig_datum" (some ""),
   dictGetD medicine "atc" (some ""),
   dictGetD medicine "werkzamestoffen" (some ""),
   dictGetD medicine "hulpstoffen" (some ""),
   dictGetD medicine "productdetail_link" (some ""),
   dictGetD medicine "nieuws_links" (some ""),
   dictGetD medicine "nieuws_link_datums" (some ""),
   dictGetD medicine "referentie" (some ""),
   dictGetD medicine "smpc_vorige_versie" (some ""),
   dictGetD medicine "smpc_vorige_vorige_versie" (some "")]

/-- Position of `productnaam` — the table's only `NOT NULL` column besides
the autoincrement key — in `insertColumnNames` and `createTableColumns`. -/
def productnaamIdx : Nat := 2

/-- The destination store's visible state: table names, index names, and the
rows of the `medicines` table in insertion order. -/
structure DbState where
  tables : List String
  indexes : List String
  rows : List (List PyVal)
deriving DecidableEq

/-- A freshly created store file. -/
def emptyDb : DbState := ⟨[], [], []⟩

/-- Executing `CREATE TABLE [IF NOT EXISTS] name (...)`. -/
def execCreateTable (ifNotExists : Bool) (name : String) (s : DbState) :
    Except String DbState :=
  if s.tables.contains name then
    if ifNotExists then .ok s else .error ("table " ++ name ++ " already exists")
  else .ok { s with tables := s.tables ++ [name] }

/-- Executing `CREATE INDEX [IF NOT EXISTS] name ON medicines(...)`. -/
def execCreateIndex (ifNotExists : Bool) (name : String) (s : DbState) :
    Except String DbState :=
  if s.indexes.contains name then
    if ifNotExists then .ok s else .error ("index " ++ name ++ " already exists")
  else .ok { s with indexes := s.indexes ++ [name] }

/-- Executing the parameterized row insert against the schema: the single
`NOT NULL` constraint (`productnaam TEXT NOT NULL`) rejects a `NULL` bound to
that column; otherwise the row is appended. -/
def execInsert (s : DbState) (vals : List PyVal) : Except String DbState :=
  if vals[productnaamIdx]? = some none then
    .error "NOT NULL constraint failed: medicines.productnaam"
  else .ok { s with rows := s.rows ++ [vals] }

/-- The state effect of `create_database`: `CREATE TABLE IF NOT EXISTS
medicines`, then the three `CREATE INDEX IF NOT EXISTS` statements, then
`conn.commit()` (which does not change the visible state). -/
def create_database (s : DbState) : Except String DbState := do
  let s ← execCreateTable true "medicines" s
  let s ← execCreateIndex true "idx_productnaam" s
  let s ← execCreateIndex true "idx_werkzamestoffen" s
  let s ← execCreateIndex true "idx_farmaceutischevorm" s
  Except.ok s

/-- One operation issued to the destination store. -/
inductive DbOp where
  | connect
  | createTable (name : String)
  | createIndex (name : String)
  | insertRow (vals : List PyVal)
  | commit
  | close
deriving DecidableEq

/-- The operation trace of `create_database`: connect, create the table and
the three indexes, commit. -/
def create_database_ops : List DbOp :=
  [DbOp.connect, DbOp.createTable "medicines",
   DbOp.createIndex "idx_productnaam", DbOp.createIndex "idx_werkzamestoffen",
   DbOp.createIndex "idx_farmaceutischevorm", DbOp.commit]

/-- The loader's batch size (`batch_size = 1000`). -/
def batch_size : Nat := 1000

/-- Python `range(i, stop, batch_size)`: the batch start indexes visited by
the insert loop, beginning at `i`. -/
def rangeBy (stop : Nat) (i : Nat) : List Nat :=
  if i < stop then i :: rangeBy stop (i + batch_size) else []
termination_by stop - i
decreasing_by simp only [batch_size]; omega

/-- The insert loop's trace: for each batch start index `i`, one `insertRow`
per record of `medicines[i:i+batch_size]` followed by one `conn.commit()`. -/
def batchOps (medicines : List PyDict) : List DbOp :=
  (rangeBy medicines.length 0).flatMap fun i =>
    (((medicines.drop i).take batch_size).map
      (fun m => DbOp.insertRow (insertValues m))) ++ [DbOp.commit]

/-- Number of records covered by each of the insert loop's batch commits, in
commit order: the length of `medicines[i:i+batch_size]` for each batch start
index `i`. -/
def batchCommitSizes (medicines : List PyDict) : List Nat :=
  (rangeBy medicines.length 0).map fun i =>
    ((medicines.drop i).take batch_size).length

/-- The store interaction of `migrate_json_to_sqlite`, given the parsed input
document (`none` models a missing `medicines.json`). Result: the operations
issued to the destination store, and the process exit disposition —
`some 1` models `sys.exit(1)`, `none` normal completion. -/
def migrate_json_to_sqlite (input : Option (List PyDict)) :
    List DbOp × Option Nat :=
  match input with
  | none => ([], some 1)
  | some medicines =>
    (create_database_ops ++ batchOps medicines ++ [DbOp.close], none)

/-- Number of `conn.commit()` calls in a trace. -/
def commitCount (ops : List DbOp) : Nat :=
  ops.countP (fun op => op = DbOp.commit)

/-! ### Verification helpers

Characterizations used by the proofs; each is shown equal to the function it
describes before being used. -/

/-- State change of `CREATE TABLE IF NOT EXISTS name`. -/
def addTableI (name : String) (s : DbState) : DbState :=
  if s.tables.contains name then s else { s with tables := s.tables ++ [name] }

/-- State change of `CREATE INDEX IF NOT EXISTS name`. -/
def addIndexI (name : String) (s : DbState) : DbState :=
  if s.indexes.contains name then s else { s with indexes := s.indexes ++ [name] }

/-- The store state `create_database` leaves behind. -/
def dbAfterCreate (s : DbState) : DbState :=
  addIndexI "idx_farmaceutischevorm"
    (addIndexI "idx_werkzamestoffen"
      (addIndexI "idx_productnaam" (addTableI "medicines" s)))

/-- The key-value pairs a `csv.DictReader` row denotes, before dict
construction: header names zipped with the row's cells, missing cells as
`None`. -/
def rowPairs (header row : List String) : PyDict :=
  header.zip (row.map some) ++ (header.drop row.length).map (fun k => (k, none))

/-- The per-entry transformation of `cleanRow`. -/
def cleanKV (kv : String × PyVal) : String × PyVal :=
  (pyLower kv.1, cleanValue kv.2)

/-- The serialized text of a non-empty object's member list, between the
opening line and the closing-brace line. -/
def membersText (d : PyDict) : List Char :=
  joinSep [',', '\n'] (d.map (fun kv => [' ', ' ', ' ', ' '] ++ serMember kv))

/-- The serialized text of a non-empty array's item list, between the opening
line and the closing-bracket line. -/
def itemsText (doc : List PyDict) : List Char :=
  joinSep [',', '\n'] (doc.map (fun d => [' ', ' '] ++ serObject d))

/-! ## Lemmas: the dict model -/

theorem dictSet_of_not_mem {d : PyDict} {k : String} (v : PyVal)
    (h : k ∉ d.map Prod.fst) : dictSet d k v = d ++ [(k, v)] := by
  simp [dictSet, List.contains, List.elem_eq_mem, h]

theorem dictSet_of_mem {d : PyDict} {k : String} (v : PyVal)
    (h : k ∈ d.map Prod.fst) :
    dictSet d k v = d.map (fun p => if p.1 = k then (k, v) else p) := by
  simp [dictSet, List.contains, List.elem_eq_mem, h]

theorem dictSet_fst_of_mem {d : PyDict} {k : String} (v : PyVal)
    (h : k ∈ d.map Prod.fst) : (dictSet d k v).map Prod.fst = d.map Prod.fst := by
  rw [dictSet_of_mem v h, List.map_map]
  apply List.map_congr_left
  intro p hp
  by_cases hpk : p.1 = k <;> simp [Function.comp, hpk]

theorem dictSet_fst_nodup {d : PyDict} {k : String} (v : PyVal)
    (h : (d.map Prod.fst).Nodup) : ((dictSet d k v).map Prod.fst).Nodup := by
  by_cases hk : k ∈ d.map Prod.fst
  · rw [dictSet_fst_of_mem v hk]; exact h
  · rw [dictSet_of_not_mem v hk]
    simp [List.nodup_append, h, hk]

theorem dictSet_fst_cases {d : PyDict} {k x : String} (v : PyVal)
    (hx : x ∈ (dictSet d k v).map Prod.fst) : x ∈ d.map Prod.fst ∨ x = k := by
  by_cases hk : k ∈ d.map Prod.fst
  · rw [dictSet_fst_of_mem v hk] at hx; exact Or.inl hx
  · rw [dictSet_of_not_mem v hk] at hx
    simp only [List.map_append, List.mem_append, List.map_cons, List.map_nil,
      List.mem_cons, List.not_mem_nil, or_false] at hx
    exact hx

theorem foldl_dictSet_of_nodup :
    ∀ (ps : List (String × PyVal)) (d : PyDict),
      (ps.map Prod.fst).Nodup →
      (∀ k ∈ ps.map Prod.fst, k ∉ d.map Prod.fst) →
      ps.foldl (fun d p => dictSet d p.1 p.2) d = d ++ ps := by
  intro ps
  induction ps with
  | nil => intro d _ _; simp
  | cons p ps ih =>
    intro d hnd hdisj
    simp only [List.foldl_cons]
    rw [dictSet_of_not_mem p.2 (hdisj p.1 (by simp))]
    rw [ih (d ++ [(p.1, p.2)])
      (by simpa using (List.nodup_cons.1 (by simpa using hnd)).2)]
    · simp
    · intro k hk
      have hk1 : k ∈ (p :: ps).map Prod.fst := by simp [hk]
      have hne : k ≠ p.1 := by
        intro h
        exact (List.nodup_cons.1 (by simpa using hnd)).1 (h ▸ hk)
      simp [hdisj k hk1, hne]

theorem dictOfPairs_of_nodup {ps : List (String × PyVal)}
    (h : (ps.map Prod.fst).Nodup) : dictOfPairs ps = ps := by
  simpa [dictOfPairs] using foldl_dictSet_of_nodup ps [] h (by simp)

theorem foldl_dictSet_fst_nodup :
    ∀ (ps : List (String × PyVal)) (d : PyDict), (d.map Prod.fst).Nodup →
      ((ps.foldl (fun d p => dictSet d p.1 p.2) d).map Prod.fst).Nodup := by
  intro ps
  induction ps with
  | nil => intro d hd; simpa
  | cons p ps ih =>
    intro d hd
    simp only [List.foldl_cons]
    exact ih _ (dictSet_fst_nodup p.2 hd)

theorem dictOfPairs_fst_nodup (ps : List (String × PyVal)) :
    ((dictOfPairs ps).map Prod.fst).Nodup :=
  foldl_dictSet_fst_nodup ps [] (by simp)

theorem foldl_dictSet_fst_subset :
    ∀ (ps : List (String × PyVal)) (d : PyDict) (p : String × PyVal),
      p ∈ ps.foldl (fun d p => dictSet d p.1 p.2) d →
      p.1 ∈ d.map Prod.fst ∨ p.1 ∈ ps.map Prod.fst := by
  intro ps
  induction ps with
  | nil =>
    intro d p hp
    exact Or.inl (List.mem_map_of_mem Prod.fst hp)
  | cons q ps ih =>
    intro d p hp
    simp only [List.foldl_cons] at hp
    rcases ih (dictSet d q.1 q.2) p hp with h | h
    · rcases dictSet_fst_cases q.2 h with h1 | h1
      · exact Or.inl h1
      · right; simp [h1]
    · right; simp [h]

theorem mem_fst_dictOfPairs {ps : List (String × PyVal)} {p : String × PyVal}
    (hp : p ∈ dictOfPairs ps) : p.1 ∈ ps.map Prod.fst := by
  rcases foldl_dictSet_fst_subset ps [] p hp with h | h
  · simp at h
  · exact h

theorem lookup_of_fst_nodup :
    ∀ (l : List (String × PyVal)) (j : Nat) (hj : j < l.length),
      (l.map Prod.fst).Nodup →
      List.lookup (l[j].1) l = some (l[j].2) := by
  intro l
  induction l with
  | nil => intro j hj; exact absurd hj (by simp)
  | cons q l ih =>
    intro j hj hnd
    obtain ⟨qk, qv⟩ := q
    cases j with
    | zero => simp
    | succ j =>
      have hj' : j < l.length := by simpa using hj
      have hq : qk ∉ l.map Prod.fst := by
        simpa using (List.nodup_cons.1 hnd).1
      have hmem : (l[j].1) ∈ l.map Prod.fst :=
        List.mem_map_of_mem Prod.fst (l.getElem_mem hj')
      have hne : (l[j].1) ≠ qk := fun h => hq (h ▸ hmem)
      simp only [List.getElem_cons_succ, List.lookup_cons]
      rw [beq_false_of_ne hne]
      exact ih j hj' (List.nodup_cons.1 hnd).2

/-! ## Claim C5 -/

/-- C5: when the Loader's input document does not exist, the run terminates
with exit status 1 and an empty store trace: the destination database is
never created, no schema statement and no insert is issued. -/
theorem C5_missing_input_fails_fast :
    migrate_json_to_sqlite none = ([], some 1) ∧
    (migrate_json_to_sqlite none).1 = [] ∧
    ∃ c, (migrate_json_to_sqlite none).2 = some c ∧ c ≠ 0 :=
  ⟨rfl, rfl, 1, rfl, by decide⟩

/-! ## Claim C6 -/

theorem execCreateTable_ok (name : String) (s : DbState) :
    execCreateTable true name s = Except.ok (addTableI name s) := by
  by_cases h : name ∈ s.tables <;>
    simp [execCreateTable, addTableI, List.contains, List.elem_eq_mem, h]

theorem execCreateIndex_ok (name : String) (s : DbState) :
    execCreateIndex true name s = Except.ok (addIndexI name s) := by
  by_cases h : name ∈ s.indexes <;>
    simp [execCreateIndex, addIndexI, List.contains, List.elem_eq_mem, h]

theorem create_database_ok (s : DbState) :
    create_database s = Except.ok (dbAfterCreate s) := by
  simp [create_database, execCreateTable_ok, execCreateIndex_ok, dbAfterCreate,
    Bind.bind, Except.bind]

theorem addTableI_eq (name : String) (s : DbState) :
    addTableI name s =
      if name ∈ s.tables then s else { s with tables := s.tables ++ [name] } := by
  simp [addTableI, List.contains, List.elem_eq_mem]

theorem addIndexI_eq (name : String) (s : DbState) :
    addIndexI name s =
      if name ∈ s.indexes then s else { s with indexes := s.indexes ++ [name] } := by
  simp [addIndexI, List.contains, List.elem_eq_mem]

theorem addTableI_tables_mem (name : String) (s : DbState) :
    name ∈ (addTableI name s).tables := by
  rw [addTableI_eq]
  by_cases h : name ∈ s.tables <;> simp [h]

theorem addTableI_of_mem {name : String} {s : DbState}
    (h : name ∈ s.tables) : addTableI name s = s := by
  rw [addTableI_eq, if_pos h]

theorem addIndexI_indexes_mem (name : String) (s : DbState) :
    name ∈ (addIndexI name s).indexes := by
  rw [addIndexI_eq]
  by_cases h : name ∈ s.indexes <;> simp [h]

theorem addIndexI_of_mem {name : String} {s : DbState}
    (h : name ∈ s.indexes) : addIndexI name s = s := by
  rw [addIndexI_eq, if_pos h]

theorem addIndexI_tables (name : String) (s : DbState) :
    (addIndexI name s).tables = s.tables := by
  rw [addIndexI_eq]
  by_cases h : name ∈ s.indexes <;> simp [h]

theorem addIndexI_indexes_sub {x name : String} {s : DbState}
    (h : x ∈ s.indexes) : x ∈ (addIndexI name s).indexes := by
  rw [addIndexI_eq]
  by_cases hc : name ∈ s.indexes <;> simp [hc, h]

theorem dbAfterCreate_idem (s : DbState) :
    dbAfterCreate (dbAfterCreate s) = dbAfterCreate s := by
  have h1 : "medicines" ∈ (dbAfterCreate s).tables := by
    unfold dbAfterCreate
    rw [addIndexI_tables, addIndexI_tables, addIndexI_tables]
    exact addTableI_tables_mem _ _
  have h2 : "idx_productnaam" ∈ (dbAfterCreate s).indexes := by
    unfold dbAfterCreate
    exact addIndexI_indexes_sub (addIndexI_indexes_sub (addIndexI_indexes_mem _ _))
  have h3 : "idx_werkzamestoffen" ∈ (dbAfterCreate s).indexes := by
    unfold dbAfterCreate
    exact addIndexI_indexes_sub (addIndexI_indexes_mem _ _)
  have h4 : "idx_farmaceutischevorm" ∈ (dbAfterCreate s).indexes := by
    unfold dbAfterCreate
    exact addIndexI_indexes_mem _ _
  conv_lhs => rw [dbAfterCreate]
  rw [addTableI_of_mem h1, addIndexI_of_mem h2, addIndexI_of_mem h3,
    addIndexI_of_mem h4]

/-- C6: schema creation is idempotent: running `create_database` a second
time against any store raises no error and leaves the state unchanged; from
a fresh store it leaves exactly one `medicines` table and the three indexes,
none duplicated. -/
theorem C6_schema_creation_idempotent :
    (∀ s : DbState, ∃ t : DbState,
        create_database s = Except.ok t ∧ create_database t = Except.ok t) ∧
    ∃ t : DbState, create_database emptyDb = Except.ok t ∧
      create_database t = Except.ok t ∧
      t.tables.count "medicines" = 1 ∧
      t.indexes =
        ["idx_productnaam", "idx_werkzamestoffen", "idx_farmaceutischevorm"] ∧
      t.indexes.Nodup := by
  constructor
  · intro s
    refine ⟨dbAfterCreate s, create_database_ok s, ?_⟩
    rw [create_database_ok, dbAfterCreate_idem]
  · refine ⟨dbAfterCreate emptyDb, create_database_ok emptyDb, ?_, ?_, ?_, ?_⟩
    · rw [create_database_ok, dbAfterCreate_idem]
    · decide
    · decide
    · decide

/-! ## Claims C1 and C9 -/

theorem insertValues_eq_map (m : PyDict) :
    insertValues m = insertColumnNames.map (fun c => dictGetD m c (some "")) := rfl

theorem insertValues_at_indexOf (m : PyDict) {c : String}
    (hc : c ∈ insertColumnNames) :
    (insertValues m)[insertColumnNames.indexOf c]? =
      some (dictGetD m c (some "")) := by
  have h1 : insertColumnNames.indexOf c < insertColumnNames.length :=
    List.indexOf_lt_length.2 hc
  rw [insertValues_eq_map, List.getElem?_map, List.getElem?_eq_getElem h1,
    List.getElem_indexOf h1]
  rfl

/-- C1: the insert statement's column list is exactly the schema's 27 non-key
columns in declaration order, the bound values are the record's values with
absent fields defaulted to the empty string, and alignment is by name: the
value at a column's position is the record's value for that very field. -/
theorem C1_insert_alignment (m : PyDict) (c : String)
    (hc : c ∈ insertColumnNames) :
    insertColumnNames = createTableColumns ∧
    insertColumnNames.length = 27 ∧
    insertValues m = insertColumnNames.map (fun c => dictGetD m c (some "")) ∧
    (insertValues m)[insertColumnNames.indexOf c]? =
      some (dictGetD m c (some "")) ∧
    (List.lookup c m = none → dictGetD m c (some "") = some "") := by
  refine ⟨rfl, rfl, insertValues_eq_map m, insertValues_at_indexOf m hc, ?_⟩
  intro h
  simp [dictGetD, h]

theorem C1_insert_alignment_witness :
    (("productnaam" : String) ∈ insertColumnNames) ∧
    (insertColumnNames = createTableColumns ∧
     insertColumnNames.length = 27 ∧
     insertValues [("productnaam", some "Aspirin 500mg")] =
       insertColumnNames.map
         (fun c => dictGetD [("productnaam", some "Aspirin 500mg")] c (some "")) ∧
     (insertValues [("productnaam", some "Aspirin 500mg")])[insertColumnNames.indexOf "productnaam"]? =
       some (dictGetD [("productnaam", some "Aspirin 500mg")] "productnaam" (some "")) ∧
     (List.lookup "productnaam" [("productnaam", some "Aspirin 500mg")] = none →
       dictGetD [("productnaam", some "Aspirin 500mg")] "productnaam" (some "") = some "")) :=
  ⟨by decide, C1_insert_alignment [("productnaam", some "Aspirin 500mg")] "productnaam" (by decide)⟩

/-- C9: a field key present with a `null` value is bound as `NULL` — the
empty-string default applies only to an absent key. A record whose
`productnaam` key is present but `null` makes the insert fail the `NOT NULL`
constraint, while a record missing the `productnaam` key is inserted with the
empty string and raises no error. -/
theorem C9_null_value_vs_missing_key :
    (∀ (m : PyDict) (c : String), c ∈ insertColumnNames →
        List.lookup c m = some none →
        (insertValues m)[insertColumnNames.indexOf c]? = some none) ∧
    (∀ (s : DbState) (m : PyDict), List.lookup "productnaam" m = some none →
        execInsert s (insertValues m) =
          Except.error "NOT NULL constraint failed: medicines.productnaam") ∧
    (∀ (s : DbState) (m : PyDict), List.lookup "productnaam" m = none →
        (insertValues m)[productnaamIdx]? = some (some "") ∧
        execInsert s (insertValues m) =
          Except.ok { s with rows := s.rows ++ [insertValues m] }) := by
  have hval : ∀ (m : PyDict), List.lookup "productnaam" m = some none →
      (insertValues m)[productnaamIdx]? = some none := by
    intro m h
    simp [insertValues, productnaamIdx, dictGetD, h]
  have hval2 : ∀ (m : PyDict), List.lookup "productnaam" m = none →
      (insertValues m)[productnaamIdx]? = some (some "") := by
    intro m h
    simp [insertValues, productnaamIdx, dictGetD, h]
  refine ⟨?_, ?_, ?_⟩
  · intro m c hc h
    rw [insertValues_at_indexOf m hc]
    simp [dictGetD, h]
  · intro s m h
    simp [execInsert, hval m h]
  · intro s m h
    refine ⟨hval2 m h, ?_⟩
    simp [execInsert, hval2 m h]

theorem C9_null_value_vs_missing_key_witness :
    (List.lookup "productnaam" ([("productnaam", none)] : PyDict) = some none ∧
     execInsert emptyDb (insertValues [("productnaam", none)]) =
       Except.error "NOT NULL constraint failed: medicines.productnaam") ∧
    (List.lookup "productnaam" ([] : PyDict) = none ∧
     (insertValues ([] : PyDict))[productnaamIdx]? = some (some "") ∧
     execInsert emptyDb (insertValues ([] : PyDict)) =
       Except.ok { emptyDb with rows := emptyDb.rows ++ [insertValues ([] : PyDict)] }) :=
  ⟨⟨rfl, C9_null_value_vs_missing_key.2.1 emptyDb [("productnaam", none)] rfl⟩,
   ⟨rfl, C9_null_value_vs_missing_key.2.2 emptyDb [] rfl⟩⟩

/-! ## Claim C2 -/

theorem rangeBy_length (stop i : Nat) :
    (rangeBy stop i).length = (stop - i + batch_size - 1) / batch_size := by
  rw [rangeBy]
  split
  · rw [List.length_cons, rangeBy_length stop (i + batch_size)]
    simp only [batch_size] at *
    omega
  · simp only [batch_size, List.length_nil]
    omega
termination_by stop - i
decreasing_by simp only [batch_size]; omega

theorem commitCount_batchOps (medicines : List PyDict) :
    commitCount (batchOps medicines) = (rangeBy medicines.length 0).length := by
  unfold batchOps
  generalize rangeBy medicines.length 0 = l
  induction l with
  | nil => rfl
  | cons i l ih =>
    simp only [List.flatMap_cons, commitCount, List.countP_append,
      List.countP_map, List.length_cons] at *
    rw [ih]
    have hz :
        List.countP
          ((fun op => decide (op = DbOp.commit)) ∘ fun m => DbOp.insertRow (insertValues m))
          ((medicines.drop i).take batch_size) = 0 := by
      apply List.countP_eq_zero.2
      intro m _
      simp [Function.comp]
    rw [hz]
    simp [List.countP_cons]
    omega

theorem rangeBy_2500 : rangeBy 2500 0 = [0, 1000, 2000] := by
  rw [rangeBy]
  simp only [batch_size]
  norm_num
  rw [rangeBy]
  simp only [batch_size]
  norm_num
  rw [rangeBy]
  simp only [batch_size]
  norm_num
  rw [rangeBy]
  simp only [batch_size]
  norm_num

/-- C2 counterexample: loading 2500 records issues 4 `conn.commit()` calls
against the destination store — the one in `create_database` plus the three
batch commits — not 3. -/
theorem C2_counterexample :
    commitCount (migrate_json_to_sqlite (some (List.replicate 2500 ([] : PyDict)))).1 = 4 ∧
    ¬ commitCount (migrate_json_to_sqlite (some (List.replicate 2500 ([] : PyDict)))).1 = 3 := by
  have h : commitCount (migrate_json_to_sqlite (some (List.replicate 2500 ([] : PyDict)))).1 = 4 := by
    simp only [migrate_json_to_sqlite, commitCount, List.countP_append]
    have h1 : List.countP (fun op => decide (op = DbOp.commit)) create_database_ops = 1 := by
      decide
    have h2 : List.countP (fun op => decide (op = DbOp.commit))
        (batchOps (List.replicate 2500 ([] : PyDict))) = 3 := by
      have := commitCount_batchOps (List.replicate 2500 ([] : PyDict))
      simp only [commitCount] at this
      rw [this, List.length_replicate, rangeBy_2500]
      rfl
    rw [h1, h2]
    decide
  exact ⟨h, by rw [h]; decide⟩

/-- C2 amended: the insert loop performs `⌈N/1000⌉` batch commits — for 2500
records exactly 3, covering 1000, 1000 and 500 records — while schema
creation contributes one further commit, for 4 commit calls in total. -/
theorem C2_batch_commits :
    (∀ medicines : List PyDict,
        commitCount (batchOps medicines) =
          (medicines.length + batch_size - 1) / batch_size) ∧
    commitCount (batchOps (List.replicate 2500 ([] : PyDict))) = 3 ∧
    batchCommitSizes (List.replicate 2500 ([] : PyDict)) = [1000, 1000, 500] ∧
    commitCount (migrate_json_to_sqlite (some (List.replicate 2500 ([] : PyDict)))).1 = 4 := by
  have hgen : ∀ medicines : List PyDict,
      commitCount (batchOps medicines) =
        (medicines.length + batch_size - 1) / batch_size := by
    intro medicines
    rw [commitCount_batchOps, rangeBy_length]
    simp only [Nat.sub_zero]
  have h3 : commitCount (batchOps (List.replicate 2500 ([] : PyDict))) = 3 := by
    rw [hgen, List.length_replicate]
    decide
  refine ⟨hgen, h3, ?_, ?_⟩
  · unfold batchCommitSizes
    simp only [List.length_replicate, rangeBy_2500, List.map_cons, List.map_nil,
      List.length_take, List.length_drop, List.length_replicate]
    decide
  · simp only [migrate_json_to_sqlite, commitCount, List.countP_append]
    have h1 : List.countP (fun op => decide (op = DbOp.commit)) create_database_ops = 1 := by
      decide
    simp only [commitCount] at h3
    rw [h1, h3]
    decide

/-! ## Claim C3 -/

/-- C3: for every valid delimited input table — each data row non-blank and
no wider than the header — the Normalizer emits exactly one Record per data
row, in source row order. -/
theorem C3_one_record_per_row (input : CsvInput)
    (h1 : ∀ r ∈ input.rows, r ≠ [])
    (h2 : ∀ r ∈ input.rows, r.length ≤ input.header.length) :
    convert_csv_to_json input =
      some (input.rows.map fun r => cleanRow (dictReaderRecord input.header r)) ∧
    ∀ recs, convert_csv_to_json input = some recs →
      recs.length = input.rows.length := by
  have hfilter : input.rows.filter (fun r => !r.isEmpty) = input.rows := by
    apply List.filter_eq_self.2
    intro r hr
    simpa [List.isEmpty_iff] using h1 r hr
  have hmain : convert_csv_to_json input =
      some (input.rows.map fun r => cleanRow (dictReaderRecord input.header r)) := by
    unfold convert_csv_to_json
    rw [hfilter, if_pos]
    apply List.all_eq_true.2
    intro r hr
    simpa using h2 r hr
  refine ⟨hmain, ?_⟩
  intro recs h
  rw [hmain] at h
  cases h
  exact List.length_map _ _

theorem C3_one_record_per_row_witness :
    (∀ r ∈ ([["x"], ["y", "z"]] : List (List String)), r ≠ []) ∧
    (∀ r ∈ ([["x"], ["y", "z"]] : List (List String)),
        r.length ≤ (["A", "B"] : List String).length) ∧
    (convert_csv_to_json ⟨["A", "B"], [["x"], ["y", "z"]]⟩ =
        some ([["x"], ["y", "z"]].map fun r =>
          cleanRow (dictReaderRecord ["A", "B"] r)) ∧
     ∀ recs, convert_csv_to_json ⟨["A", "B"], [["x"], ["y", "z"]]⟩ = some recs →
       recs.length = ([["x"], ["y", "z"]] : List (List String)).length) :=
  ⟨by decide, by decide,
   C3_one_record_per_row ⟨["A", "B"], [["x"], ["y", "z"]]⟩ (by decide) (by decide)⟩

/-! ## Claim C8 -/

theorem isUpper_eq_decide (c : Char) :
    c.isUpper = decide (65 ≤ c.toNat ∧ c.toNat ≤ 90) := by
  simp [Char.isUpper, Char.toNat, UInt32.le_def, BitVec.le_def, UInt32.toNat]

theorem toLower_of_not_latin {c : Char} (h : ¬(65 ≤ c.toNat ∧ c.toNat ≤ 90)) :
    Char.toLower c = c := by
  unfold Char.toLower
  rw [if_neg]
  exact h

theorem toNat_toLower_of_latin {c : Char} (h : 65 ≤ c.toNat ∧ c.toNat ≤ 90) :
    (Char.toLower c).toNat = c.toNat + 32 := by
  unfold Char.toLower
  rw [if_pos h]
  have hv : (c.toNat + 32).isValidChar := Or.inl (by omega)
  rw [Char.ofNat, dif_pos hv]
  rfl

theorem toLower_not_upper (c : Char) : (Char.toLower c).isUpper = false := by
  by_cases h : 65 ≤ c.toNat ∧ c.toNat ≤ 90
  · rw [isUpper_eq_decide, toNat_toLower_of_latin h]
    simp only [decide_eq_false_iff_not]
    omega
  · rw [toLower_of_not_latin h, isUpper_eq_decide]
    simpa using h

theorem toLower_idem (c : Char) :
    Char.toLower (Char.toLower c) = Char.toLower c := by
  apply toLower_of_not_latin
  have := toLower_not_upper c
  rw [isUpper_eq_decide] at this
  simpa using this

theorem pyLower_idem (s : String) : pyLower (pyLower s) = pyLower s := by
  have hcomp : Char.toLower ∘ Char.toLower = Char.toLower := funext toLower_idem
  simp [pyLower, List.map_map, hcomp]

theorem pyLower_no_upper (s : String) :
    (pyLower s).data.all (fun c => !c.isUpper) = true := by
  simp only [pyLower, List.all_eq_true]
  intro c hc
  obtain ⟨x, _, rfl⟩ := List.mem_map.1 hc
  simp [toLower_not_upper]

/-- C8: every field name of every Record the Normalizer emits is lowercase —
it is unchanged by lowering and contains no ASCII uppercase letter —
whatever the casing of the input header row. -/
theorem C8_keys_lowercase (input : CsvInput) (recs : List PyDict)
    (h : convert_csv_to_json input = some recs) :
    ∀ rec ∈ recs, ∀ kv ∈ rec,
      pyLower kv.1 = kv.1 ∧ kv.1.data.all (fun c => !c.isUpper) = true := by
  unfold convert_csv_to_json at h
  dsimp only [] at h
  split at h
  · intro rec hrec kv hkv
    cases h
    obtain ⟨r, _, rfl⟩ := List.mem_map.1 hrec
    have hk := mem_fst_dictOfPairs hkv
    rw [List.map_map] at hk
    obtain ⟨q, _, hq⟩ := List.mem_map.1 hk
    have : kv.1 = pyLower q.1 := hq.symm
    rw [this]
    exact ⟨pyLower_idem q.1, pyLower_no_upper q.1⟩
  · cases h

theorem C8_keys_lowercase_witness :
    convert_csv_to_json ⟨["ProductNaam"], [["Aspirin"]]⟩ =
      some [[("productnaam", some "Aspirin")]] ∧
    ∀ rec ∈ [[(("productnaam" : String), (some "Aspirin" : PyVal))]], ∀ kv ∈ rec,
      pyLower kv.1 = kv.1 ∧ kv.1.data.all (fun c => !c.isUpper) = true :=
  ⟨by decide,
   C8_keys_lowercase ⟨["ProductNaam"], [["Aspirin"]]⟩
     [[("productnaam", some "Aspirin")]] (by decide)⟩

/-! ## Claim C10 -/

/-- C10: the Normalizer lowercases header names but never strips whitespace
from them: a header cell with surrounding whitespace yields a record key that
keeps the whitespace, misses the Loader's fixed lowercase column-name set,
and the corresponding column is bound the empty string instead of the row's
value. -/
theorem C10_header_whitespace_not_stripped :
    (∀ (k : String) (v : PyVal),
        cleanRow [(k, v)] = [(pyLower k, cleanValue v)]) ∧
    pyLower " Productnaam " = " productnaam " ∧
    pyStrip " Productnaam " ≠ " Productnaam " ∧
    convert_csv_to_json ⟨[" Productnaam "], [["Aspirin 500mg"]]⟩ =
      some [[(" productnaam ", some "Aspirin 500mg")]] ∧
    (" productnaam " : String) ∉ insertColumnNames ∧
    insertColumnNames[productnaamIdx]? = some "productnaam" ∧
    (insertValues [(" productnaam ", some "Aspirin 500mg")])[productnaamIdx]? =
      some (some "") := by
  refine ⟨fun k v => rfl, by decide, by decide, by decide, by decide, by decide,
    by decide⟩

/-! ## Claim C4 -/

theorem rowPairs_nil (header : List String) :
    rowPairs header [] = header.map (fun k => (k, none)) := by
  simp [rowPairs]

theorem rowPairs_cons (k : String) (hs : List String) (v : String)
    (vs : List String) :
    rowPairs (k :: hs) (v :: vs) = (k, some v) :: rowPairs hs vs := by
  simp [rowPairs]

theorem rowPairs_fst : ∀ (header row : List String),
    (rowPairs header row).map Prod.fst = header := by
  intro header
  induction header with
  | nil => intro row; simp [rowPairs]
  | cons k hs ih =>
    intro row
    cases row with
    | nil =>
      rw [rowPairs_nil, List.map_map]
      have hcomp : (Prod.fst ∘ fun k : String => (k, (none : PyVal))) = id := rfl
      rw [hcomp, List.map_id]
    | cons v vs => simp [rowPairs_cons, ih]

theorem rowPairs_length (header row : List String) :
    (rowPairs header row).length = header.length := by
  have := rowPairs_fst header row
  have hlen := congrArg List.length this
  simpa using hlen

theorem rowPairs_getElem :
    ∀ (header row : List String) (j : Nat) (hj : j < header.length),
      row.length ≤ header.length →
      (rowPairs header row)[j]? =
        some (header[j],
          if h : j < row.length then some (row[j]) else none) := by
  intro header
  induction header with
  | nil => intro row j hj; exact absurd hj (by simp)
  | cons k hs ih =>
    intro row j hj hlen
    cases row with
    | nil =>
      rw [rowPairs_nil]
      rw [List.getElem?_map]
      rw [List.getElem?_eq_getElem hj]
      simp
    | cons v vs =>
      rw [rowPairs_cons]
      cases j with
      | zero => simp
      | succ j =>
        have hj' : j < hs.length := by simpa using hj
        have hlen' : vs.length ≤ hs.length := by simpa using hlen
        rw [List.getElem?_cons_succ, ih vs j hj' hlen']
        simp

theorem zip_some_fst : ∀ (header row : List String),
    (header.zip (row.map some)).map Prod.fst = header.take row.length := by
  intro header
  induction header with
  | nil => intro row; simp
  | cons k hs ih =>
    intro row
    cases row with
    | nil => simp
    | cons v vs => simp [ih vs]

theorem dictReaderRecord_eq_rowPairs (header row : List String)
    (hnd : header.Nodup) (hlen : row.length ≤ header.length) :
    dictReaderRecord header row = rowPairs header row := by
  have hsplit := List.take_append_drop row.length header
  have hnd2 : (header.take row.length ++ header.drop row.length).Nodup := by
    rw [hsplit]; exact hnd
  obtain ⟨hndt, hndd, hdisj⟩ := List.nodup_append.1 hnd2
  unfold dictReaderRecord
  rw [dictOfPairs_of_nodup (by rw [zip_some_fst]; exact hndt)]
  rw [← List.foldl_map (fun k => (k, (none : PyVal)))
    (fun d p => dictSet d p.1 p.2)]
  rw [foldl_dictSet_of_nodup]
  · rfl
  · rw [List.map_map]
    have hcomp : (Prod.fst ∘ fun k : String => (k, (none : PyVal))) = id := rfl
    rw [hcomp, List.map_id]
    exact hndd
  · intro k hk
    rw [List.map_map] at hk
    have hcomp : (Prod.fst ∘ fun k : String => (k, (none : PyVal))) = id := rfl
    rw [hcomp, List.map_id] at hk
    rw [zip_some_fst]
    intro hmem
    exact hdisj hmem hk

theorem cleanRow_rowPairs (header row : List String)
    (hnd : (header.map pyLower).Nodup) (hlen : row.length ≤ header.length) :
    cleanRow (dictReaderRecord header row) =
      (rowPairs header row).map (fun kv => (pyLower kv.1, cleanValue kv.2)) := by
  have hnd0 : header.Nodup := List.Nodup.of_map pyLower hnd
  rw [dictReaderRecord_eq_rowPairs header row hnd0 hlen]
  unfold cleanRow
  apply dictOfPairs_of_nodup
  rw [List.map_map]
  have hcomp : (Prod.fst ∘ fun kv : String × PyVal =>
      (pyLower kv.1, cleanValue kv.2)) = pyLower ∘ Prod.fst := rfl
  rw [hcomp, ← List.map_map, rowPairs_fst]
  exact hnd

theorem cleanRecord_getElem (header row : List String) (j : Nat)
    (hnd : (header.map pyLower).Nodup) (hlen : row.length ≤ header.length)
    (hj : j < header.length) :
    (cleanRow (dictReaderRecord header row))[j]? =
      some (pyLower header[j],
        cleanValue (if h : j < row.length then some (row[j]) else none)) := by
  rw [cleanRow_rowPairs header row hnd hlen, List.getElem?_map,
    rowPairs_getElem header row j hj hlen]
  rfl

theorem cleanRecord_length (header row : List String)
    (hnd : (header.map pyLower).Nodup) (hlen : row.length ≤ header.length) :
    (cleanRow (dictReaderRecord header row)).length = header.length := by
  rw [cleanRow_rowPairs header row hnd hlen, List.length_map, rowPairs_length]

theorem cleanRecord_fst (header row : List String)
    (hnd : (header.map pyLower).Nodup) (hlen : row.length ≤ header.length) :
    (cleanRow (dictReaderRecord header row)).map Prod.fst =
      header.map pyLower := by
  rw [cleanRow_rowPairs header row hnd hlen, List.map_map]
  have hcomp : (Prod.fst ∘ fun kv : String × PyVal =>
      (pyLower kv.1, cleanValue kv.2)) = pyLower ∘ Prod.fst := rfl
  rw [hcomp, ← List.map_map, rowPairs_fst]

theorem cleanRecord_lookup (header row : List String) (j : Nat)
    (hnd : (header.map pyLower).Nodup) (hlen : row.length ≤ header.length)
    (hj : j < header.length) :
    List.lookup (pyLower header[j]) (cleanRow (dictReaderRecord header row)) =
      some (cleanValue (if h : j < row.length then some (row[j]) else none)) := by
  have hlen2 : j < (cleanRow (dictReaderRecord header row)).length := by
    rw [cleanRecord_length header row hnd hlen]; exact hj
  have hpair : (cleanRow (dictReaderRecord header row))[j] =
      (pyLower header[j],
        cleanValue (if h : j < row.length then some (row[j]) else none)) := by
    have h1 := cleanRecord_getElem header row j hnd hlen hj
    rw [List.getElem?_eq_getElem hlen2] at h1
    exact Option.some.inj h1
  have hmain := lookup_of_fst_nodup (cleanRow (dictReaderRecord header row)) j
    hlen2 (by rw [cleanRecord_fst header row hnd hlen]; exact hnd)
  rw [hpair] at hmain
  exact hmain

/-- C4: a non-empty cell value is emitted with surrounding whitespace
stripped, while a cell absent because its row is shorter than the header
stays absent (`null`) in the emitted Record — it is not coerced to the empty
string. -/
theorem C4_values_trimmed_absent_null (header row : List String) (j : Nat)
    (hnd : (header.map pyLower).Nodup) (hlen : row.length ≤ header.length)
    (hne : row ≠ []) (hj : j < header.length) :
    convert_csv_to_json ⟨header, [row]⟩ =
      some [cleanRow (dictReaderRecord header row)] ∧
    (∀ hjr : j < row.length, row[j] ≠ "" →
        List.lookup (pyLower header[j])
            (cleanRow (dictReaderRecord header row)) =
          some (some (pyStrip row[j]))) ∧
    (row.length ≤ j →
        List.lookup (pyLower header[j])
            (cleanRow (dictReaderRecord header row)) = some none) := by
  refine ⟨?_, ?_, ?_⟩
  · unfold convert_csv_to_json
    have hfilter : [row].filter (fun r => !r.isEmpty) = [row] := by
      apply List.filter_eq_self.2
      intro r hr
      simp only [List.mem_singleton] at hr
      subst hr
      simpa [List.isEmpty_iff] using hne
    rw [hfilter, if_pos]
    · rfl
    · simpa using hlen
  · intro hjr hval
    rw [cleanRecord_lookup header row j hnd hlen hj, dif_pos hjr]
    simp [cleanValue, hval]
  · intro hge
    rw [cleanRecord_lookup header row j hnd hlen hj, dif_neg (by omega)]
    rfl

theorem C4_values_trimmed_absent_null_witness :
    ((["Naam", "Soort"].map pyLower).Nodup ∧
     (["  Aspirin  "] : List String).length ≤ (["Naam", "Soort"] : List String).length ∧
     (["  Aspirin  "] : List String) ≠ [] ∧ 0 < (["Naam", "Soort"] : List String).length ∧
     1 < (["Naam", "Soort"] : List String).length) ∧
    (List.lookup (pyLower "Naam")
        (cleanRow (dictReaderRecord ["Naam", "Soort"] ["  Aspirin  "])) =
      some (some (pyStrip "  Aspirin  "))) ∧
    (List.lookup (pyLower "Soort")
        (cleanRow (dictReaderRecord ["Naam", "Soort"] ["  Aspirin  "])) =
      some none) := by
  refine ⟨⟨by decide, by decide, by decide, by decide, by decide⟩, ?_, ?_⟩
  · have h := C4_values_trimmed_absent_null ["Naam", "Soort"] ["  Aspirin  "] 0
      (by decide) (by decide) (by decide) (by decide)
    exact h.2.1 (by decide) (by decide)
  · have h := C4_values_trimmed_absent_null ["Naam", "Soort"] ["  Aspirin  "] 1
      (by decide) (by decide) (by decide) (by decide)
    exact h.2.2 (by decide)

/-! ## Claim C7: serialization round trip

The development shows that the model of `json.load` inverts the model of
`json.dump` on every document the Normalizer can produce, hence
re-serializing the loaded document reproduces the exact bytes. -/

theorem toNat_ofNat_of_valid {n : Nat} (h : n.isValidChar) :
    (Char.ofNat n).toNat = n := by
  rw [Char.ofNat, dif_pos h]
  rfl

theorem hexVal_hexDigit {m : Nat} (h : m < 16) :
    hexVal (hexDigit m) = some m := by
  unfold hexDigit hexVal
  by_cases h10 : m < 10
  · rw [if_pos h10]
    have ht : (Char.ofNat (48 + m)).toNat = 48 + m :=
      toNat_ofNat_of_valid (Or.inl (by omega))
    rw [ht, if_pos (by omega)]
    simp
  · rw [if_neg h10]
    have ht : (Char.ofNat (87 + m)).toNat = 87 + m :=
      toNat_ofNat_of_valid (Or.inl (by omega))
    rw [ht, if_neg (by omega), if_pos (by omega)]
    simp [Nat.add_sub_cancel_left]

theorem escChar_length (c : Char) : 1 ≤ (escChar c).length := by
  unfold escChar
  split_ifs <;> simp

theorem flatMap_escChar_length (s : List Char) :
    s.length ≤ (s.flatMap escChar).length := by
  induction s with
  | nil => simp
  | cons c cs ih =>
    rw [List.flatMap_cons, List.length_append, List.length_cons]
    have := escChar_length c
    omega

theorem escChar_spec (c : Char) :
    (escChar c = [c] ∧ c ≠ '"' ∧ c ≠ '\\' ∧ 32 ≤ c.toNat) ∨
    (∃ t, escChar c = '\\' :: t ∧
      ∀ r : List Char, parseEscape (t ++ r) = some (c, r)) := by
  unfold escChar
  split_ifs with h1 h2 h3 h4 h5 h6 h7 h8
  · subst h1; exact Or.inr ⟨['\\'], rfl, fun r => rfl⟩
  · subst h2; exact Or.inr ⟨['"'], rfl, fun r => rfl⟩
  · subst h3; exact Or.inr ⟨['b'], rfl, fun r => rfl⟩
  · subst h4; exact Or.inr ⟨['t'], rfl, fun r => rfl⟩
  · subst h5; exact Or.inr ⟨['n'], rfl, fun r => rfl⟩
  · subst h6; exact Or.inr ⟨['f'], rfl, fun r => rfl⟩
  · subst h7; exact Or.inr ⟨['r'], rfl, fun r => rfl⟩
  · refine Or.inr ⟨['u', '0', '0', hexDigit (c.toNat / 16),
      hexDigit (c.toNat % 16)], rfl, fun r => ?_⟩
    have hd1 : hexVal (hexDigit (c.toNat / 16)) = some (c.toNat / 16) :=
      hexVal_hexDigit (by omega)
    have hd2 : hexVal (hexDigit (c.toNat % 16)) = some (c.toNat % 16) :=
      hexVal_hexDigit (by omega)
    have h0 : hexVal '0' = some 0 := rfl
    have hn : ((0 * 16 + 0) * 16 + c.toNat / 16) * 16 + c.toNat % 16 =
        c.toNat := by omega
    simp [parseEscape, h0, hd1, hd2, hn]
    have hm : c.toNat / 16 * 16 + c.toNat % 16 = c.toNat := by
      have := Nat.div_add_mod c.toNat 16
      omega
    rw [hm]
    exact ⟨by omega, Char.ofNat_toNat c⟩
  · exact Or.inl ⟨rfl, h2, h1, by omega⟩

theorem string_eta (s : String) : String.mk s.data = s := rfl

theorem parseStringBody_roundtrip :
    ∀ (s : List Char) (fuel : Nat) (rest : List Char), s.length < fuel →
      parseStringBody fuel (s.flatMap escChar ++ '"' :: rest) = some (s, rest) := by
  intro s
  induction s with
  | nil =>
    intro fuel rest hf
    cases fuel with
    | zero => omega
    | succ f =>
      simp [parseStringBody]
  | cons c cs ih =>
    intro fuel rest hf
    cases fuel with
    | zero => omega
    | succ f =>
      have hcs : cs.length < f := by
        have : (c :: cs).length = cs.length + 1 := rfl
        omega
      rcases escChar_spec c with ⟨he, hq, hb, hge⟩ | ⟨t, he, hp⟩
      · rw [List.flatMap_cons, he]
        have hinput : ([c] ++ cs.flatMap escChar) ++ '"' :: rest =
            c :: (cs.flatMap escChar ++ '"' :: rest) := by simp
        rw [hinput]
        rw [parseStringBody]
        rw [if_neg hq, if_neg hb, if_neg (by omega)]
        rw [ih f rest hcs]
      · rw [List.flatMap_cons, he]
        have hinput : (('\\' :: t) ++ cs.flatMap escChar) ++ '"' :: rest =
            '\\' :: (t ++ (cs.flatMap escChar ++ '"' :: rest)) := by simp
        rw [hinput]
        rw [parseStringBody]
        rw [if_neg (by decide), if_pos rfl]
        rw [hp (cs.flatMap escChar ++ '"' :: rest)]
        simp [ih f rest hcs]

theorem parseStringBody_self (s : String) (rest : List Char) :
    parseStringBody (s.data.flatMap escChar ++ '"' :: rest).length
      (s.data.flatMap escChar ++ '"' :: rest) = some (s.data, rest) := by
  apply parseStringBody_roundtrip
  rw [List.length_append, List.length_cons]
  have := flatMap_escChar_length s.data
  omega

theorem parseValue_roundtrip (v : PyVal) (rest : List Char) :
    parseValue (serVal v ++ rest) = some (v, rest) := by
  cases v with
  | none => simp [serVal, parseValue]
  | some s =>
    have hinput : serVal (some s) ++ rest =
        '"' :: (s.data.flatMap escChar ++ '"' :: rest) := by
      simp [serVal, serString]
    rw [hinput]
    simp only [parseValue, if_true]
    rw [parseStringBody_self s rest]
    simp [string_eta]

theorem skipWs_cons_of_ws {c : Char} (h : jsonWs c = true) (r : List Char) :
    skipWs (c :: r) = skipWs r := by
  simp [skipWs, List.dropWhile_cons, h]

theorem skipWs_cons_of_not {c : Char} (h : jsonWs c = false) (r : List Char) :
    skipWs (c :: r) = c :: r := by
  simp [skipWs, List.dropWhile_cons, h]

theorem skipWs_serVal (v : PyVal) (tail : List Char) :
    skipWs (serVal v ++ tail) = serVal v ++ tail := by
  cases v <;>
    simp [serVal, serString, skipWs, List.dropWhile_cons, jsonWs]

theorem parseMembers_step (kv : String × PyVal) (acc : PyDict) (f : Nat)
    (tail : List Char) :
    parseMembers (f + 1) acc
      ('\n' :: ' ' :: ' ' :: ' ' :: ' ' :: (serMember kv ++ tail)) =
      (match skipWs tail with
       | [] => none
       | c3 :: rest4 =>
         if c3 = ',' then parseMembers f (dictSet acc kv.1 kv.2) rest4
         else if c3 = '}' then some (dictSet acc kv.1 kv.2, rest4)
         else none) := by
  have hm : serMember kv ++ tail =
      '"' :: (kv.1.data.flatMap escChar ++
        '"' :: (':' :: ' ' :: (serVal kv.2 ++ tail))) := by
    simp [serMember, serString]
  have hsk : skipWs ('\n' :: ' ' :: ' ' :: ' ' :: ' ' :: (serMember kv ++ tail)) =
      '"' :: (kv.1.data.flatMap escChar ++
        '"' :: (':' :: ' ' :: (serVal kv.2 ++ tail))) := by
    rw [skipWs_cons_of_ws (by decide), skipWs_cons_of_ws (by decide),
      skipWs_cons_of_ws (by decide), skipWs_cons_of_ws (by decide),
      skipWs_cons_of_ws (by decide), hm, skipWs_cons_of_not (by decide)]
  simp only [parseMembers]
  rw [hsk]
  simp only [if_true]
  rw [parseStringBody_self kv.1 (':' :: ' ' :: (serVal kv.2 ++ tail))]
  simp [skipWs_cons_of_not (show jsonWs ':' = false from by decide),
    skipWs_cons_of_ws (show jsonWs ' ' = true from by decide),
    skipWs_serVal, parseValue_roundtrip, string_eta]

theorem parseMembers_roundtrip :
    ∀ (d : List (String × PyVal)) (acc : PyDict) (fuel : Nat) (rest : List Char),
      d ≠ [] → d.length ≤ fuel →
      parseMembers fuel acc
        ('\n' :: (membersText d ++ ('\n' :: ' ' :: ' ' :: '}' :: rest))) =
        some (d.foldl (fun a kv => dictSet a kv.1 kv.2) acc, rest) := by
  intro d
  induction d with
  | nil => intro acc fuel rest hne; exact absurd rfl hne
  | cons kv d' ih =>
    intro acc fuel rest _ hlen
    cases fuel with
    | zero => simp at hlen
    | succ f =>
      cases d' with
      | nil =>
        have hin : '\n' :: (membersText [kv] ++ ('\n' :: ' ' :: ' ' :: '}' :: rest)) =
            '\n' :: ' ' :: ' ' :: ' ' :: ' ' ::
              (serMember kv ++ ('\n' :: ' ' :: ' ' :: '}' :: rest)) := by
          simp [membersText, joinSep]
        rw [hin, parseMembers_step]
        have hskip : skipWs ('\n' :: ' ' :: ' ' :: '}' :: rest) = '}' :: rest := by
          rw [skipWs_cons_of_ws (by decide), skipWs_cons_of_ws (by decide),
            skipWs_cons_of_ws (by decide), skipWs_cons_of_not (by decide)]
        rw [hskip]
        simp
      | cons q d'' =>
        have hin : '\n' :: (membersText (kv :: q :: d'') ++
              ('\n' :: ' ' :: ' ' :: '}' :: rest)) =
            '\n' :: ' ' :: ' ' :: ' ' :: ' ' :: (serMember kv ++
              (',' :: '\n' :: (membersText (q :: d'') ++
                ('\n' :: ' ' :: ' ' :: '}' :: rest)))) := by
          simp [membersText, joinSep]
        rw [hin, parseMembers_step]
        rw [skipWs_cons_of_not (by decide)]
        have hrec := ih (dictSet acc kv.1 kv.2) f rest (by simp)
          (by simp at hlen ⊢; omega)
        simp [hrec]

theorem joinSep_length (sep : List Char) :
    ∀ (l : List (List Char)), (∀ x ∈ l, 1 ≤ x.length) →
      l.length ≤ (joinSep sep l).length := by
  intro l
  induction l with
  | nil => simp
  | cons x xs ih =>
    intro h
    cases xs with
    | nil =>
      have := h x (by simp)
      simp [joinSep]
      omega
    | cons y ys =>
      have hx := h x (by simp)
      have hrec := ih (fun z hz => h z (by simp [hz]))
      simp only [joinSep, List.length_append, List.length_cons] at hrec ⊢
      omega

theorem membersText_length (d : PyDict) :
    d.length ≤ (membersText d).length := by
  have h := joinSep_length [',', '\n']
    (d.map (fun kv => [' ', ' ', ' ', ' '] ++ serMember kv))
    (by intro x hx; obtain ⟨kv, _, rfl⟩ := List.mem_map.1 hx; simp)
  rw [List.length_map] at h
  exact h

theorem parseObject_roundtrip (d : PyDict) (hnd : (d.map Prod.fst).Nodup)
    (rest : List Char) :
    parseObject (serObject d ++ rest) = some (d, rest) := by
  cases d with
  | nil =>
    simp [serObject, parseObject,
      skipWs_cons_of_not (show jsonWs '}' = false from by decide)]
  | cons kv d' =>
    have hobj : serObject (kv :: d') ++ rest =
        '{' :: ('\n' :: (membersText (kv :: d') ++
          ('\n' :: ' ' :: ' ' :: '}' :: rest))) := by
      simp [serObject, membersText]
    rw [hobj]
    obtain ⟨T, hT⟩ : ∃ T, membersText (kv :: d') =
        ' ' :: ' ' :: ' ' :: ' ' :: (serMember kv ++ T) := by
      cases d' with
      | nil => exact ⟨[], by simp [membersText, joinSep]⟩
      | cons q d'' =>
        exact ⟨',' :: '\n' :: membersText (q :: d''),
          by simp [membersText, joinSep]⟩
    have hm2 : serMember kv ++ (T ++ ('\n' :: ' ' :: ' ' :: '}' :: rest)) =
        '"' :: (kv.1.data.flatMap escChar ++ '"' :: (':' :: ' ' ::
          (serVal kv.2 ++ (T ++ ('\n' :: ' ' :: ' ' :: '}' :: rest))))) := by
      simp [serMember, serString]
    have hskip : skipWs ('\n' :: (membersText (kv :: d') ++
          ('\n' :: ' ' :: ' ' :: '}' :: rest))) =
        '"' :: (kv.1.data.flatMap escChar ++ '"' :: (':' :: ' ' ::
          (serVal kv.2 ++ (T ++ ('\n' :: ' ' :: ' ' :: '}' :: rest))))) := by
      rw [hT]
      rw [show (' ' :: ' ' :: ' ' :: ' ' :: (serMember kv ++ T)) ++
            ('\n' :: ' ' :: ' ' :: '}' :: rest) =
          ' ' :: ' ' :: ' ' :: ' ' ::
            (serMember kv ++ (T ++ ('\n' :: ' ' :: ' ' :: '}' :: rest)))
        from by simp]
      rw [skipWs_cons_of_ws (by decide), skipWs_cons_of_ws (by decide),
        skipWs_cons_of_ws (by decide), skipWs_cons_of_ws (by decide),
        skipWs_cons_of_ws (by decide), hm2, skipWs_cons_of_not (by decide)]
    have hfuel : (kv :: d').length ≤
        ('\n' :: (membersText (kv :: d') ++
          ('\n' :: ' ' :: ' ' :: '}' :: rest))).length := by
      have hmt := membersText_length (kv :: d')
      simp only [List.length_cons] at hmt
      simp only [List.length_cons, List.length_append]
      omega
    have hrun := parseMembers_roundtrip (kv :: d') []
      ('\n' :: (membersText (kv :: d') ++
        ('\n' :: ' ' :: ' ' :: '}' :: rest))).length rest (by simp) hfuel
    have hfold : (kv :: d').foldl (fun a p => dictSet a p.1 p.2) [] = kv :: d' :=
      dictOfPairs_of_nodup hnd
    rw [hfold] at hrun
    simp only [List.length_cons, List.length_append] at hrun
    simp [parseObject, hskip, hrun]

theorem serObject_head (d : PyDict) : ∃ X, serObject d = '{' :: X := by
  cases d with
  | nil => exact ⟨['}'], rfl⟩
  | cons kv d' => exact ⟨_, rfl⟩

theorem skipWs_serObject (d : PyDict) (tail : List Char) :
    skipWs (serObject d ++ tail) = serObject d ++ tail := by
  obtain ⟨X, hX⟩ := serObject_head d
  rw [hX, List.cons_append, skipWs_cons_of_not (by decide)]

theorem parseItems_roundtrip :
    ∀ (ds : List PyDict) (acc : List PyDict) (fuel : Nat) (rest : List Char),
      ds ≠ [] → ds.length ≤ fuel → (∀ d ∈ ds, (d.map Prod.fst).Nodup) →
      parseItems fuel acc ('\n' :: (itemsText ds ++ ('\n' :: ']' :: rest))) =
        some (acc ++ ds, rest) := by
  intro ds
  induction ds with
  | nil => intro acc fuel rest hne; exact absurd rfl hne
  | cons d ds' ih =>
    intro acc fuel rest _ hlen hnd
    cases fuel with
    | zero => simp at hlen
    | succ f =>
      cases ds' with
      | nil =>
        have hin : '\n' :: (itemsText [d] ++ ('\n' :: ']' :: rest)) =
            '\n' :: ' ' :: ' ' :: (serObject d ++ ('\n' :: ']' :: rest)) := by
          simp [itemsText, joinSep]
        rw [hin]
        simp only [parseItems]
        have hskip : skipWs ('\n' :: ' ' :: ' ' ::
              (serObject d ++ ('\n' :: ']' :: rest))) =
            serObject d ++ ('\n' :: ']' :: rest) := by
          rw [skipWs_cons_of_ws (by decide), skipWs_cons_of_ws (by decide),
            skipWs_cons_of_ws (by decide), skipWs_serObject]
        rw [hskip, parseObject_roundtrip d (hnd d (by simp))]
        have hskip2 : skipWs ('\n' :: ']' :: rest) = ']' :: rest := by
          rw [skipWs_cons_of_ws (by decide), skipWs_cons_of_not (by decide)]
        simp [hskip2]
      | cons q ds'' =>
        have hin : '\n' :: (itemsText (d :: q :: ds'') ++ ('\n' :: ']' :: rest)) =
            '\n' :: ' ' :: ' ' :: (serObject d ++
              (',' :: '\n' :: (itemsText (q :: ds'') ++ ('\n' :: ']' :: rest)))) := by
          simp [itemsText, joinSep]
        rw [hin]
        simp only [parseItems]
        have hskip : skipWs ('\n' :: ' ' :: ' ' :: (serObject d ++
              (',' :: '\n' :: (itemsText (q :: ds'') ++ ('\n' :: ']' :: rest))))) =
            serObject d ++
              (',' :: '\n' :: (itemsText (q :: ds'') ++ ('\n' :: ']' :: rest))) := by
          rw [skipWs_cons_of_ws (by decide), skipWs_cons_of_ws (by decide),
            skipWs_cons_of_ws (by decide), skipWs_serObject]
        rw [hskip, parseObject_roundtrip d (hnd d (by simp))]
        have hrec := ih (acc ++ [d]) f rest (by simp)
          (by simp at hlen ⊢; omega)
          (fun x hx => hnd x (by simp [hx]))
        simp [skipWs_cons_of_not (show jsonWs ',' = false from by decide), hrec]

/-- The loaded document equals the dumped one, for documents whose objects
have pairwise-distinct keys (true of everything the Normalizer emits; a
JSON object with repeated keys would collapse to the last occurrence when
loaded, exactly as Python dicts do). -/
theorem jsonLoad_jsonDump (doc : List PyDict)
    (h : ∀ d ∈ doc, (d.map Prod.fst).Nodup) :
    jsonLoad (jsonDump doc) = some doc := by
  cases doc with
  | nil => rfl
  | cons d ds =>
    have hdoc : (jsonDump (d :: ds)).data =
        '[' :: ('\n' :: (itemsText (d :: ds) ++ ('\n' :: ']' :: []))) := by
      simp [jsonDump, serDoc, itemsText]
    unfold jsonLoad
    rw [hdoc]
    rw [skipWs_cons_of_not (by decide)]
    have hfuel : (d :: ds).length ≤
        ('\n' :: (itemsText (d :: ds) ++ ('\n' :: ']' :: []))).length := by
      have hjl := joinSep_length [',', '\n']
        ((d :: ds).map (fun x => [' ', ' '] ++ serObject x))
        (by intro x hx; obtain ⟨y, _, rfl⟩ := List.mem_map.1 hx; simp)
      rw [List.length_map] at hjl
      simp only [itemsText] at *
      simp only [List.length_cons, List.length_append] at *
      omega
    have hrun := parseItems_roundtrip (d :: ds) []
      ('\n' :: (itemsText (d :: ds) ++ ('\n' :: ']' :: []))).length []
      (by simp) hfuel h
    simp only [List.nil_append] at hrun
    obtain ⟨T, hT⟩ : ∃ T, itemsText (d :: ds) =
        ' ' :: ' ' :: (serObject d ++ T) := by
      cases ds with
      | nil => exact ⟨[], by simp [itemsText, joinSep]⟩
      | cons q ds' =>
        exact ⟨',' :: '\n' :: itemsText (q :: ds'),
          by simp [itemsText, joinSep]⟩
    obtain ⟨X, hX⟩ := serObject_head d
    have hskipI : skipWs ('\n' :: (itemsText (d :: ds) ++ ('\n' :: ']' :: []))) =
        '{' :: (X ++ (T ++ ('\n' :: ']' :: []))) := by
      rw [hT]
      rw [show (' ' :: ' ' :: (serObject d ++ T)) ++ ('\n' :: ']' :: []) =
          ' ' :: ' ' :: (serObject d ++ (T ++ ('\n' :: ']' :: []))) from by simp]
      rw [skipWs_cons_of_ws (by decide), skipWs_cons_of_ws (by decide),
        skipWs_cons_of_ws (by decide), hX, List.cons_append,
        skipWs_cons_of_not (by decide)]
    simp only [parseArray, if_true]
    rw [hskipI]
    generalize hF : ('\n' :: (itemsText (d :: ds) ++ ('\n' :: ']' :: []))).length = F
    rw [hF] at hrun
    simp [hrun, skipWs]

theorem convert_keys_nodup (input : CsvInput) (recs : List PyDict)
    (h : convert_csv_to_json input = some recs) :
    ∀ rec ∈ recs, (rec.map Prod.fst).Nodup := by
  unfold convert_csv_to_json at h
  dsimp only [] at h
  split at h
  · cases h
    intro rec hrec
    obtain ⟨r, _, rfl⟩ := List.mem_map.1 hrec
    exact dictOfPairs_fst_nodup _
  · cases h

/-- C7: serialization is round-trip stable on the Normalizer's output:
deserializing the dumped document gives back exactly the emitted records, so
re-serializing with the same formatting rules (2-space indentation,
non-ASCII unescaped) reproduces the document byte for byte. -/
theorem C7_serialization_roundtrip (input : CsvInput) (recs : List PyDict)
    (h : convert_csv_to_json input = some recs) :
    jsonLoad (jsonDump recs) = some recs ∧
    (jsonLoad (jsonDump recs)).map jsonDump = some (jsonDump recs) := by
  have hnd := convert_keys_nodup input recs h
  have hrt := jsonLoad_jsonDump recs hnd
  exact ⟨hrt, by rw [hrt]; rfl⟩

theorem C7_serialization_roundtrip_witness :
    (convert_csv_to_json ⟨["ProductNaam", "Soort"], [["Aspirin", "Tablet"]]⟩ =
      some [[("productnaam", some "Aspirin"), ("soort", some "Tablet")]]) ∧
    (jsonLoad (jsonDump [[("productnaam", some "Aspirin"), ("soort", some "Tablet")]]) =
      some [[("productnaam", some "Aspirin"), ("soort", some "Tablet")]] ∧
     (jsonLoad (jsonDump [[("productnaam", some "Aspirin"), ("soort", some "Tablet")]])).map jsonDump =
      some (jsonDump [[("productnaam", some "Aspirin"), ("soort", some "Tablet")]])) :=
  ⟨by decide,
   C7_serialization_roundtrip ⟨["ProductNaam", "Soort"], [["Aspirin", "Tablet"]]⟩
     [[("productnaam", some "Aspirin"), ("soort", some "Tablet")]] (by decide)⟩

end Medicate
